import Mathlib

/-!
Verification of the polling-based message relay (`src/server/routes.ts`,
messaging section) and the call-session controller
(`src/client/src/pages/video-call.tsx`, the `CallProvider` context, and the
transcription polling loop of the `TranslationService`), as a shallow
embedding in Lean 4.

Conventions of the embedding:
  * JavaScript objects that carry message data are association lists
    `List (String × JsVal)`; object-literal construction with spread
    (`{type, from: senderId, ...payload}`) is a fold of `setKey`, which
    overwrites an existing key in place (as JS property assignment does)
    and appends a fresh key at the end.
  * Request-body fields are `Option`-valued; `none` models an absent field.
    JavaScript truthiness tests (`!to`, `!type`) are modelled by `jsTruthy*`
    predicates: `0`, the empty string, and an absent field are falsy.
  * Timestamps are integers (milliseconds, as produced by `Date.now()`).
  * The process-wide `clients` `Map` is an association list keyed by the
    numeric user id, with `Map.set`/`Map.get` semantics (`mapSet`, `mapGet`).
-/

/-- A JSON-like value, enough for the message payloads that flow through
the relay. -/
inductive JsVal where
  | num (n : Int)
  | str (s : String)
  deriving DecidableEq, Repr

/-- A JavaScript object as an association list of fields. -/
abbrev JsObj := List (String × JsVal)

/-- Insertion into an association list with the semantics shared by a JS
`Map.set` and JS property assignment: overwrite an existing key in place,
otherwise append the new binding at the end (insertion-order semantics). -/
def assocSet {α β : Type} [DecidableEq α] :
    List (α × β) → α → β → List (α × β)
  | [], k, v => [(k, v)]
  | p :: t, k, v => if p.1 = k then (k, v) :: t else p :: assocSet t k v

/-- Lookup in an association list (first occurrence). -/
def assocGet {α β : Type} [DecidableEq α] : List (α × β) → α → Option β
  | [], _ => none
  | p :: t, k => if p.1 = k then some p.2 else assocGet t k

/-- Property assignment on an object. -/
def setKey (o : JsObj) (k : String) (v : JsVal) : JsObj :=
  assocSet o k v

/-- Field lookup on an object (first occurrence; objects built with
`setKey` have unique keys). -/
def lookupField (o : JsObj) (k : String) : Option JsVal :=
  assocGet o k

/-- The value the last occurrence of key `k` carries in a raw field list. -/
def lastField (fields : JsObj) (k : String) : Option JsVal :=
  (fields.reverse.find? (fun p => p.1 = k)).map (fun p => p.2)

/-- The message object built by the send handler:
`{ type, from: senderId, ...payload }` (routes.ts lines 163-167).
The payload's own fields are spread into the message, after `type` and
`from`, so a payload field named `type` or `from` overwrites those. -/
def mkMessage (type : String) (senderId : Int) (payload : JsObj) : JsObj :=
  payload.foldl (fun o p => setKey o p.1 p.2) [("type", JsVal.str type), ("from", JsVal.num senderId)]

/-- One entry of the `clients` map: `{ lastPoll: number, messages: any[] }`. -/
structure Client where
  lastPoll : Int
  messages : List JsObj
  deriving DecidableEq, Repr

/-- The process-wide `clients` map, keyed by user id. -/
abbrev RelayState := List (Int × Client)

/-- `Map.get`: the entry stored under `k`, if any. -/
def mapGet (m : RelayState) (k : Int) : Option Client :=
  assocGet m k

/-- `Map.set`: replace the entry under `k` in place, or append it. -/
def mapSet (m : RelayState) (k : Int) (v : Client) : RelayState :=
  assocSet m k v

/-- `getOrCreateClient` (routes.ts lines 137-142): insert a fresh entry
`{ lastPoll: Date.now(), messages: [] }` if the user has none, and return
the map together with the user's entry. -/
def getOrCreateClient (m : RelayState) (userId : Int) (now : Int) :
    RelayState × Client :=
  match mapGet m userId with
  | some c => (m, c)
  | none =>
      let c : Client := { lastPoll := now, messages := [] }
      (mapSet m userId c, c)

/-- The `POST /api/messaging/register` handler: ensure an entry exists and
refresh its `lastPoll`. -/
def registerOp (m : RelayState) (userId : Int) (now : Int) : RelayState :=
  let (m', c) := getOrCreateClient m userId now
  mapSet m' userId { c with lastPoll := now }

/-- The body of a send request: `const { to, type, payload } = req.body`.
`none` models an absent field. (`to` and `type` are reserved words in this
formalisation's host language, hence the field names `toUser`/`msgType`.) -/
structure SendBody where
  toUser : Option Int
  msgType : Option String
  payload : Option JsObj
  deriving DecidableEq, Repr

/-- JS truthiness of the `to` field: absent, and the number `0`, are falsy. -/
def jsTruthyTo : Option Int → Bool
  | none => false
  | some n => n ≠ 0

/-- JS truthiness of the `type` field: absent, and the empty string, are
falsy. -/
def jsTruthyType : Option String → Bool
  | none => false
  | some s => s ≠ ""

/-- Error reported by the relay. -/
inductive RelayError where
  | invalidRequest
  deriving DecidableEq, Repr

/-- The `POST /api/messaging/send` handler (routes.ts lines 153-181):
reject with 400 when `!to || !type` — returning before the `clients` map
is touched; otherwise lazily create the recipient's entry, append
`{type, from: senderId, ...payload}` to its queue, and drop the oldest
message once the queue length exceeds 100. The result pairs the HTTP
response (success or `InvalidRequest`) with the `clients` map after the
handler ran. -/
def sendOp (m : RelayState) (senderId : Int) (body : SendBody) (now : Int) :
    Except RelayError Unit × RelayState :=
  if ¬ jsTruthyTo body.toUser ∨ ¬ jsTruthyType body.msgType then
    (Except.error RelayError.invalidRequest, m)
  else
    let toId := body.toUser.getD 0
    let type := body.msgType.getD ""
    let (m', recipient) := getOrCreateClient m toId now
    let message := mkMessage type senderId (body.payload.getD [])
    let msgs := recipient.messages ++ [message]
    let msgs := if msgs.length > 100 then msgs.tail else msgs
    (Except.ok (), mapSet m' toId { recipient with messages := msgs })

/-- The `GET /api/messaging/poll` handler (routes.ts lines 184-194):
refresh `lastPoll`, return a copy of the pending messages, and leave the
queue empty. -/
def pollOp (m : RelayState) (userId : Int) (now : Int) :
    List JsObj × RelayState :=
  let (m', c) := getOrCreateClient m userId now
  (c.messages, mapSet m' userId { lastPoll := now, messages := [] })

/-- The idle threshold of the cleanup sweep: 5 minutes in milliseconds. -/
def idleThresholdMs : Int := 5 * 60 * 1000

/-- The fixed period of the cleanup sweep: one minute in milliseconds. -/
def sweepIntervalMs : Int := 60 * 1000

/-- The `setInterval` cleanup body (routes.ts lines 126-135): delete every
entry whose `lastPoll` is more than five minutes old. -/
def sweepOp (m : RelayState) (now : Int) : RelayState :=
  m.filter (fun p => ¬ now - p.2.lastPoll > idleThresholdMs)

/-- The queue update a single send performs on the recipient's pending
messages: push, then drop the oldest entry once the length exceeds 100. -/
def pushTrim (q : List JsObj) (msg : JsObj) : List JsObj :=
  let q := q ++ [msg]
  if q.length > 100 then q.tail else q

/-- One send request as it reaches the handler: the authenticated sender
id, the request body, and the `Date.now()` at which it is processed. -/
structure SendReq where
  senderId : Int
  body : SendBody
  now : Int
  deriving DecidableEq, Repr

/-- The message object a send request produces. -/
def msgOf (r : SendReq) : JsObj :=
  mkMessage (r.body.msgType.getD "") r.senderId (r.body.payload.getD [])

/-- A request that passes validation and is addressed to recipient `B`. -/
abbrev validTo (B : Int) (r : SendReq) : Prop :=
  r.body.toUser = some B ∧ B ≠ 0 ∧ jsTruthyType r.body.msgType = true

/-- Run a sequence of send requests; a rejected request leaves the
`clients` map exactly as the handler does (the new map is the second
component of `sendOp`, which on error is the old map). -/
def sendAll (m : RelayState) (reqs : List SendReq) : RelayState :=
  reqs.foldl (fun m r => (sendOp m r.senderId r.body r.now).2) m

/-- A relay operation, for invariants quantified over the whole API
surface of the messaging routes. -/
inductive RelayOp where
  | register (userId : Int) (now : Int)
  | send (senderId : Int) (body : SendBody) (now : Int)
  | poll (userId : Int) (now : Int)
  | sweep (now : Int)
  deriving DecidableEq, Repr

/-- Apply one relay operation to the `clients` map. -/
def applyRelayOp (m : RelayState) : RelayOp → RelayState
  | RelayOp.register userId now => registerOp m userId now
  | RelayOp.send senderId body now => (sendOp m senderId body now).2
  | RelayOp.poll userId now => (pollOp m userId now).2
  | RelayOp.sweep now => sweepOp m now

/-- Every queue in the map holds at most 100 pending messages. -/
def boundedQueues (m : RelayState) : Prop :=
  ∀ p ∈ m, p.2.messages.length ≤ 100

/-- Well-formedness of the `clients` map: no duplicate keys (a JS `Map`
guarantees this; `mapSet` preserves it). -/
abbrev wfKeys (m : RelayState) : Prop :=
  (m.map Prod.fst).Nodup

/-! ## Call-session controller

The client-side state is split between the `CallProvider` React context
(`call-context.tsx`, shipped as `src/unnamed/part_001`) and the
`VideoCall` page component (`src/client/src/pages/video-call.tsx`).
React state setters are modelled as pure record updates; toasts,
navigation and media playback are side effects outside the state. -/

/-- A user record, reduced to the fields the call context stores. -/
structure CallUser where
  id : Int
  username : String
  displayName : Option String
  deriving DecidableEq, Repr

/-- One transcript entry (`Message` in call-context.tsx). -/
structure TranscriptMessage where
  id : String
  sender : CallUser
  text : String
  translatedText : Option String
  timestamp : Int
  deriving DecidableEq, Repr

/-- The state held by `CallProvider` (`useState` hooks plus the
`messageIdCounter` ref). -/
structure ProviderState where
  isInCall : Bool
  isCalling : Bool
  callPartner : Option CallUser
  messages : List TranscriptMessage
  initiatorLanguage : String
  receiverLanguage : String
  messageIdCounter : Nat
  deriving DecidableEq, Repr

/-- The initial `CallProvider` state: not in a call, empty transcript,
default languages `en`/`es`, counter at 0. -/
def initProvider : ProviderState :=
  { isInCall := false, isCalling := false, callPartner := none,
    messages := [], initiatorLanguage := "en", receiverLanguage := "es",
    messageIdCounter := 0 }

/-- The call phase, derived from the provider's two booleans as the spec's
state machine names them: `isCalling` → Calling, `isInCall` → Connected,
neither → Idle. The provider has no stored `Ended` phase: ending a call
resets both flags, i.e. lands directly in `Idle`. -/
inductive CallPhase where
  | idle
  | calling
  | connected
  deriving DecidableEq, Repr

/-- Derive the phase from the provider state. -/
def phase (s : ProviderState) : CallPhase :=
  if s.isCalling then CallPhase.calling
  else if s.isInCall then CallPhase.connected
  else CallPhase.idle

/-- `startCall(partner, initiatorLang, receiverLang)` in call-context.tsx. -/
def startCall (s : ProviderState) (partner : CallUser)
    (initiatorLang receiverLang : String) : ProviderState :=
  { s with callPartner := some partner, initiatorLanguage := initiatorLang,
           receiverLanguage := receiverLang, isCalling := true }

/-- `endCall()` in call-context.tsx: clear both flags, the partner and the
transcript (plus a toast, which carries no state). -/
def endCallProvider (s : ProviderState) : ProviderState :=
  { s with isInCall := false, isCalling := false, callPartner := none,
           messages := [] }

/-- `acceptCall()` in call-context.tsx. -/
def acceptCall (s : ProviderState) : ProviderState :=
  { s with isInCall := true, isCalling := false }

/-- The argument of `addMessage`: a `Partial<Message>`. `sender` is an
object (always truthy when present), `text` a string (falsy when empty),
`timestamp` a `Date` (always truthy when present). -/
structure PartialMessage where
  sender : Option CallUser
  text : Option String
  translatedText : Option String
  timestamp : Option Int
  deriving DecidableEq, Repr

/-- JS truthiness of the `text` field of a `Partial<Message>`. -/
def jsTruthyText : Option String → Bool
  | none => false
  | some s => s ≠ ""

/-- `addMessage(message)` in call-context.tsx (part_001 lines 845-857):
return unchanged when `!message.sender || !message.text`; otherwise append
one entry with id `msg-<counter>`, the given sender/text/translatedText,
and `message.timestamp || new Date()` as timestamp. There is no check of
the call phase. -/
def addMessage (s : ProviderState) (message : PartialMessage) (now : Int) :
    ProviderState :=
  if ¬ message.sender.isSome ∨ ¬ jsTruthyText message.text then s
  else
    let newMessage : TranscriptMessage :=
      { id := "msg-" ++ toString s.messageIdCounter,
        sender := message.sender.getD ⟨0, "", none⟩,
        text := message.text.getD "",
        translatedText := message.translatedText,
        timestamp := message.timestamp.getD now }
    { s with messages := s.messages ++ [newMessage],
             messageIdCounter := s.messageIdCounter + 1 }

/-- The `VideoCall` page's own state: the `isConnected` and `callDuration`
`useState` hooks and whether `durationIntervalRef` currently holds a live
interval. -/
structure PageState where
  isConnected : Bool
  callDuration : Nat
  timerRunning : Bool
  deriving DecidableEq, Repr

/-- The page state on mount. -/
def initPage : PageState :=
  { isConnected := false, callDuration := 0, timerRunning := false }

/-- `startDurationTimer()` (video-call.tsx lines 98-108): clear any
existing interval, reset the duration to 0, and start a fresh 1-second
interval. -/
def startDurationTimer (s : PageState) : PageState :=
  { s with callDuration := 0, timerRunning := true }

/-- The combined client call state: page, provider context, and whether
the RTC (Agora) session is currently joined. -/
structure CallState where
  page : PageState
  provider : ProviderState
  rtcJoined : Bool
  deriving DecidableEq, Repr

/-- The combined state on mount with a fresh provider. -/
def initCallState : CallState :=
  { page := initPage, provider := initProvider, rtcJoined := false }

/-- `handleEndCall()` (video-call.tsx lines 118-125): leave the RTC
session, clear the duration interval, and call the provider's `endCall()`
(navigation back to `/` is a side effect outside the state). -/
def handleEndCall (s : CallState) : CallState :=
  { s with rtcJoined := false,
           page := { s.page with timerRunning := false },
           provider := endCallProvider s.provider }

/-- The events the `VideoCall` page reacts to: the Agora event handlers
registered in its `useEffect` (video-call.tsx lines 41-62), completion of
`initializeCall`, a tick of the duration interval, and the local
end-call action. -/
inductive PageEvent where
  | remoteUserJoined (hasVideoTrack : Bool)
  | remoteUserLeft
  | localUserJoined
  | joinSucceeded
  | tick
  | endCallAction
  deriving DecidableEq, Repr

/-- One step of the page's event handling, as wired in video-call.tsx:
`onRemoteUserJoined` plays the remote video and sets `isConnected` when
the user has a video track; `onRemoteUserLeft` clears `isConnected` and
runs `handleEndCall`; `onLocalUserJoined` starts the duration timer;
`initializeCall` sets `isConnected` after a successful join; the interval
tick increments `callDuration`. -/
def stepPage (s : CallState) : PageEvent → CallState
  | PageEvent.remoteUserJoined hasVideoTrack =>
      if hasVideoTrack then
        { s with page := { s.page with isConnected := true } }
      else s
  | PageEvent.remoteUserLeft =>
      handleEndCall { s with page := { s.page with isConnected := false } }
  | PageEvent.localUserJoined =>
      { s with page := startDurationTimer s.page }
  | PageEvent.joinSucceeded =>
      { s with rtcJoined := true,
               page := { s.page with isConnected := true } }
  | PageEvent.tick =>
      if s.page.timerRunning then
        { s with page := { s.page with callDuration := s.page.callDuration + 1 } }
      else s
  | PageEvent.endCallAction => handleEndCall s

/-! ## Transcription polling (`TranslationService.pollTranscriptionResult`)

The loop polls `getTranscriptionResult` with a 2-second delay between
attempts; the outcome of attempt `i` (1-based) is modelled by
`results i : Option String` (`none` = still pending). -/

/-- `maxAttempts` in main.tsx: 30 attempts with 2s delay = 60s timeout. -/
def maxAttempts : Nat := 30

/-- The delay `setTimeout(checkResult, 2000)` schedules between attempts,
in milliseconds. -/
def pollDelayMs : Nat := 2000

/-- `checkResult` of `pollTranscriptionResult` (main.tsx lines 91-126):
increment `attempts`, fetch the result; resolve when a result is present,
reject with "Transcription timed out" when `attempts >= maxAttempts`, and
otherwise schedule another attempt after 2 seconds. Returns the outcome
together with the number of attempts made. -/
def checkResult (results : Nat → Option String) (attempts : Nat) :
    Except String String × Nat :=
  let a := attempts + 1
  match results a with
  | some r => (Except.ok r, a)
  | none =>
      if a ≥ maxAttempts then (Except.error "Transcription timed out", a)
      else checkResult results a
termination_by maxAttempts - attempts
decreasing_by simp_wf; omega

/-- `pollTranscriptionResult(transcriptionId)`: run `checkResult` starting
from `attempts = 0`. -/
def pollTranscriptionResult (results : Nat → Option String) :
    Except String String × Nat :=
  checkResult results 0

/-- A batch of 101 valid send requests, all addressed to user 2, used to
exercise the 100-entry capacity bound on concrete runs. -/
def manyReqs : List SendReq :=
  (List.range 101).map (fun i =>
    { senderId := 1,
      body := { toUser := some 2, msgType := some "m",
                payload := some [("i", JsVal.num (Int.ofNat i))] },
      now := 0 })

/-! ## Lemmas about association-list maps -/

theorem assocGet_assocSet {α β : Type} [DecidableEq α]
    (m : List (α × β)) (k k' : α) (v : β) :
    assocGet (assocSet m k' v) k = if k' = k then some v else assocGet m k := by
  induction m with
  | nil => by_cases hk : k' = k <;> simp [assocSet, assocGet, hk]
  | cons p t ih =>
    simp only [assocSet]
    by_cases hp : p.1 = k'
    · rw [if_pos hp]
      by_cases hk : k' = k
      · simp [assocGet, hk]
      · have hpk : ¬ p.1 = k := by rw [hp]; exact hk
        simp [assocGet, hk, hpk]
    · rw [if_neg hp]
      by_cases hpk : p.1 = k
      · have hk : ¬ k' = k := fun h => hp (by rw [hpk, h])
        simp [assocGet, hpk, hk]
      · simp [assocGet, hpk, ih]

theorem assocGet_assocSet_self {α β : Type} [DecidableEq α]
    (m : List (α × β)) (k : α) (v : β) :
    assocGet (assocSet m k v) k = some v := by
  simp [assocGet_assocSet]

theorem mem_assocSet {α β : Type} [DecidableEq α]
    {m : List (α × β)} {k : α} {v : β} {p : α × β}
    (h : p ∈ assocSet m k v) : p ∈ m ∨ p = (k, v) := by
  induction m with
  | nil => simp [assocSet] at h; simp [h]
  | cons q t ih =>
    by_cases hq : q.1 = k
    · simp [assocSet, hq] at h
      rcases h with h | h
      · right; exact h
      · left; simp [h]
    · simp [assocSet, hq] at h
      rcases h with h | h
      · left; simp [h]
      · rcases ih h with h' | h'
        · left; simp [h']
        · right; exact h'

theorem mem_of_assocGet_eq_some {α β : Type} [DecidableEq α]
    {m : List (α × β)} {k : α} {c : β}
    (h : assocGet m k = some c) : (k, c) ∈ m := by
  induction m with
  | nil => simp [assocGet] at h
  | cons p t ih =>
    obtain ⟨p1, p2⟩ := p
    by_cases hp : p1 = k
    · simp [assocGet, hp] at h
      subst hp
      subst h
      exact List.mem_cons_self _ _
    · simp only [assocGet] at h
      rw [if_neg hp] at h
      exact List.mem_cons_of_mem _ (ih h)

theorem assocGet_eq_none_of_not_mem_keys {α β : Type} [DecidableEq α]
    {m : List (α × β)} {k : α}
    (h : k ∉ m.map Prod.fst) : assocGet m k = none := by
  induction m with
  | nil => rfl
  | cons p t ih =>
    have h1 : ¬ p.1 = k := fun hh => h (by simp [hh])
    have h2 : k ∉ t.map Prod.fst := fun hh => h (by simp [hh])
    simp [assocGet, h1, ih h2]

/-! ## Lemmas about the relay operations -/

theorem jsTruthyTo_eq_false_iff (o : Option Int) :
    jsTruthyTo o = false ↔ o = none ∨ o = some 0 := by
  cases o with
  | none => simp [jsTruthyTo]
  | some n => simp [jsTruthyTo]

theorem jsTruthyType_eq_false_iff (o : Option String) :
    jsTruthyType o = false ↔ o = none ∨ o = some "" := by
  cases o with
  | none => simp [jsTruthyType]
  | some s => simp [jsTruthyType]

theorem sendOp_ok_some (m : RelayState) (r : SendReq) (B : Int) (c : Client)
    (hv : validTo B r) (hc : mapGet m B = some c) :
    sendOp m r.senderId r.body r.now =
      (Except.ok (), mapSet m B { c with messages := pushTrim c.messages (msgOf r) }) := by
  obtain ⟨hto, hB, hty⟩ := hv
  have htrue : jsTruthyTo r.body.toUser = true := by simp [hto, jsTruthyTo, hB]
  unfold sendOp
  rw [if_neg (by simp [htrue, hty])]
  simp only [hto, Option.getD_some, getOrCreateClient, hc, msgOf, pushTrim]

theorem sendOp_ok_none (m : RelayState) (r : SendReq) (B : Int)
    (hv : validTo B r) (hc : mapGet m B = none) :
    sendOp m r.senderId r.body r.now =
      (Except.ok (), mapSet (mapSet m B { lastPoll := r.now, messages := [] }) B
        { lastPoll := r.now, messages := pushTrim [] (msgOf r) }) := by
  obtain ⟨hto, hB, hty⟩ := hv
  have htrue : jsTruthyTo r.body.toUser = true := by simp [hto, jsTruthyTo, hB]
  unfold sendOp
  rw [if_neg (by simp [htrue, hty])]
  simp only [hto, Option.getD_some, getOrCreateClient, hc, msgOf, pushTrim, mapSet]

theorem pollOp_fst (m : RelayState) (u now : Int) :
    (pollOp m u now).1 = (mapGet m u).elim [] Client.messages := by
  unfold pollOp getOrCreateClient
  cases hc : mapGet m u <;> simp

theorem pollOp_snd_get (m : RelayState) (u now : Int) :
    mapGet (pollOp m u now).2 u = some { lastPoll := now, messages := [] } := by
  unfold pollOp getOrCreateClient
  cases hc : mapGet m u <;>
    simp [mapGet, mapSet, assocGet_assocSet_self]

theorem registerOp_get_none (m : RelayState) (u now : Int)
    (hc : mapGet m u = none) :
    mapGet (registerOp m u now) u = some { lastPoll := now, messages := [] } := by
  unfold registerOp getOrCreateClient
  rw [hc]
  simp [mapGet, mapSet, assocGet_assocSet_self]

theorem pushTrim_length_le (q : List JsObj) (msg : JsObj)
    (h : q.length ≤ 100) : (pushTrim q msg).length ≤ 100 := by
  unfold pushTrim
  by_cases hlen : (q ++ [msg]).length > 100
  · simp only [if_pos hlen]
    simp at hlen ⊢
    omega
  · simp only [if_neg hlen]
    simp at hlen ⊢
    omega

theorem pushTrim_of_lt (q : List JsObj) (msg : JsObj)
    (h : q.length < 100) : pushTrim q msg = q ++ [msg] := by
  unfold pushTrim
  rw [if_neg]
  simp
  omega

theorem foldl_pushTrim_of_le (msgs : List JsObj) :
    ∀ q : List JsObj, q.length + msgs.length ≤ 100 →
      msgs.foldl pushTrim q = q ++ msgs := by
  induction msgs with
  | nil => intro q _; simp
  | cons msg t ih =>
    intro q h
    simp only [List.foldl_cons]
    rw [pushTrim_of_lt q msg (by simp at h; omega)]
    rw [ih (q ++ [msg]) (by simp at h ⊢; omega)]
    simp

theorem foldl_pushTrim_drop (rest : List JsObj) :
    ∀ ms : List JsObj,
      rest.foldl pushTrim (ms.drop (ms.length - 100)) =
        (ms ++ rest).drop (ms.length + rest.length - 100) := by
  induction rest with
  | nil => intro ms; simp
  | cons r t ih =>
    intro ms
    simp only [List.foldl_cons]
    have hstep : pushTrim (ms.drop (ms.length - 100)) r =
        (ms ++ [r]).drop (ms.length + 1 - 100) := by
      by_cases hlen : ms.length < 100
      · have h0 : ms.length - 100 = 0 := by omega
        have h1 : ms.length + 1 - 100 = 0 := by omega
        rw [h0, h1, List.drop_zero, List.drop_zero]
        exact pushTrim_of_lt ms r hlen
      · have hge : 100 ≤ ms.length := by omega
        have hql : (ms.drop (ms.length - 100)).length = 100 := by
          rw [List.length_drop]; omega
        unfold pushTrim
        rw [if_pos (by simp [hql])]
        rw [List.tail_append_of_ne_nil (by
          intro hnil
          rw [hnil] at hql
          simp at hql)]
        have hidx : ms.length - 100 + 1 = ms.length + 1 - 100 := by omega
        rw [List.tail_drop, hidx, List.drop_append_of_le_length (by omega)]
    rw [hstep]
    have := ih (ms ++ [r])
    simp only [List.length_append, List.length_singleton] at this
    rw [this]
    rw [List.append_assoc]
    simp only [List.singleton_append, List.length_cons]
    congr 1
    omega

theorem foldl_pushTrim_nil (msgs : List JsObj) :
    msgs.foldl pushTrim [] = msgs.drop (msgs.length - 100) := by
  have := foldl_pushTrim_drop msgs []
  simpa using this

theorem sendAll_queue (B : Int) (reqs : List SendReq)
    (hv : ∀ r ∈ reqs, validTo B r) :
    ∀ (m : RelayState) (c : Client), mapGet m B = some c →
      mapGet (sendAll m reqs) B =
        some { c with
               messages := reqs.foldl (fun q r => pushTrim q (msgOf r)) c.messages } := by
  induction reqs with
  | nil => intro m c hc; simpa [sendAll]
  | cons r rs ih =>
    intro m c hc
    have hstep := sendOp_ok_some m r B c (hv r (by simp)) hc
    simp only [sendAll, List.foldl_cons] at ih ⊢
    rw [show (sendOp m r.senderId r.body r.now).2 =
          mapSet m B { c with messages := pushTrim c.messages (msgOf r) } from by
        rw [hstep]]
    exact ih (fun r' hr' => hv r' (by simp [hr'])) _ _
      (assocGet_assocSet_self m B _)

/-! ## Lemmas about message construction (object spread) -/

theorem lookupField_setKey (o : JsObj) (k' : String) (v : JsVal) (k : String) :
    lookupField (setKey o k' v) k = if k' = k then some v else lookupField o k :=
  assocGet_assocSet o k k' v

theorem lastField_cons (p : String × JsVal) (t : JsObj) (k : String) :
    lastField (p :: t) k =
      (lastField t k).or (if p.1 = k then some p.2 else none) := by
  unfold lastField
  rw [List.reverse_cons, List.find?_append]
  cases h : (t.reverse.find? fun q => q.1 = k) with
  | some q => simp [Option.or]
  | none =>
    by_cases hp : p.1 = k <;> simp [Option.or, List.find?, hp]

theorem lookupField_foldl_setKey (payload : JsObj) :
    ∀ (o : JsObj) (k : String),
      lookupField (payload.foldl (fun o p => setKey o p.1 p.2) o) k =
        (lastField payload k).or (lookupField o k) := by
  induction payload with
  | nil => intro o k; simp [lastField, Option.or]
  | cons p t ih =>
    intro o k
    simp only [List.foldl_cons]
    rw [ih (setKey o p.1 p.2) k, lastField_cons, lookupField_setKey]
    cases h : lastField t k with
    | some v => simp [Option.or]
    | none => by_cases hp : p.1 = k <;> simp [Option.or, hp]

theorem lookupField_mkMessage (type : String) (sid : Int) (payload : JsObj)
    (k : String) :
    lookupField (mkMessage type sid payload) k =
      (lastField payload k).or
        (lookupField [("type", JsVal.str type), ("from", JsVal.num sid)] k) :=
  lookupField_foldl_setKey payload _ k

/-! ## Lemmas about the sweep and the capacity invariant -/

theorem assocGet_filter_none {m : RelayState} {u : Int}
    (f : Int × Client → Bool) (h : u ∉ m.map Prod.fst) :
    assocGet (m.filter f) u = none :=
  assocGet_eq_none_of_not_mem_keys
    (fun hmem => h (List.map_subset _ (List.filter_sublist m).subset hmem))

theorem sweepOp_removes (m : RelayState) (u now : Int) (c : Client)
    (hwf : wfKeys m) (hc : mapGet m u = some c)
    (hold : now - c.lastPoll > idleThresholdMs) :
    mapGet (sweepOp m now) u = none := by
  induction m with
  | nil => simp [mapGet, assocGet] at hc
  | cons p t ih =>
    rw [wfKeys, List.map_cons, List.nodup_cons] at hwf
    by_cases hp : p.1 = u
    · have hcp : p.2 = c := by
        simp [mapGet, assocGet, hp] at hc
        exact hc
      have hdrop : (fun q : Int × Client =>
          decide (¬ now - q.2.lastPoll > idleThresholdMs)) p = false := by
        simp [hcp, hold]
      rw [sweepOp, List.filter_cons]
      simp only [hdrop, if_false, Bool.false_eq_true]
      show assocGet (t.filter _) u = none
      exact assocGet_filter_none _ (hp ▸ hwf.1)
    · have hc' : mapGet t u = some c := by
        simpa [mapGet, assocGet, hp] using hc
      have htail := ih hwf.2 hc'
      rw [sweepOp, List.filter_cons]
      by_cases hkeep : (decide (¬ now - p.2.lastPoll > idleThresholdMs)) = true
      · simp only [hkeep, if_true]
        show (if p.1 = u then some p.2 else assocGet (t.filter _) u) = none
        rw [if_neg hp]
        exact htail
      · simp only [hkeep, if_false]
        exact htail

theorem boundedQueues_mapSet {m : RelayState} {k : Int} {v : Client}
    (hm : boundedQueues m) (hv : v.messages.length ≤ 100) :
    boundedQueues (mapSet m k v) := by
  intro p hp
  rcases mem_assocSet hp with h | h
  · exact hm p h
  · rw [h]
    exact hv

theorem boundedQueues_preserved (s : RelayState) (op : RelayOp)
    (h : boundedQueues s) : boundedQueues (applyRelayOp s op) := by
  cases op with
  | register u now =>
    show boundedQueues (registerOp s u now)
    unfold registerOp getOrCreateClient
    cases hc : mapGet s u with
    | some c =>
      exact boundedQueues_mapSet h (h (u, c) (mem_of_assocGet_eq_some hc))
    | none =>
      exact boundedQueues_mapSet (boundedQueues_mapSet h (by simp)) (by simp)
  | send sid body now =>
    show boundedQueues (sendOp s sid body now).2
    unfold sendOp
    split
    · exact h
    · unfold getOrCreateClient
      dsimp only
      cases hc : mapGet s (body.toUser.getD 0) with
      | some c =>
        dsimp only
        apply boundedQueues_mapSet h
        exact pushTrim_length_le c.messages _
          (h (body.toUser.getD 0, c) (mem_of_assocGet_eq_some hc))
      | none =>
        dsimp only
        apply boundedQueues_mapSet (boundedQueues_mapSet h (by simp))
        exact pushTrim_length_le [] _ (by simp)
  | poll u now =>
    show boundedQueues (pollOp s u now).2
    unfold pollOp getOrCreateClient
    cases hc : mapGet s u with
    | some c => exact boundedQueues_mapSet h (by simp)
    | none =>
      exact boundedQueues_mapSet (boundedQueues_mapSet h (by simp)) (by simp)
  | sweep now =>
    intro p hp
    exact h p (List.mem_of_mem_filter hp)

/-! ## Claim theorems -/

/-- C4: after more than 100 sends addressed to an un-polled recipient the
mailbox queue holds exactly the most recent 100 messages (oldest dropped
first), every relay operation preserves the bound `length ≤ 100` on every
queue, and the bound holds in the initial empty registry. -/
theorem relay_capacity (B : Int) (m : RelayState) (reqs : List SendReq)
    (hv : ∀ r ∈ reqs, validTo B r) (hB : mapGet m B = none)
    (hlen : 100 < reqs.length) :
    (∃ c, mapGet (sendAll m reqs) B = some c ∧
        c.messages = (reqs.map msgOf).drop (reqs.length - 100)) ∧
    (∀ (s : RelayState) (op : RelayOp),
        boundedQueues s → boundedQueues (applyRelayOp s op)) ∧
    boundedQueues [] := by
  refine ⟨?_, boundedQueues_preserved, fun p hp => by simp at hp⟩
  cases reqs with
  | nil => simp at hlen
  | cons r rs =>
    have hstep := sendOp_ok_none m r B (hv r (by simp)) hB
    have hget : mapGet (mapSet (mapSet m B { lastPoll := r.now, messages := [] }) B
          { lastPoll := r.now, messages := pushTrim [] (msgOf r) }) B =
        some { lastPoll := r.now, messages := pushTrim [] (msgOf r) } :=
      assocGet_assocSet_self _ _ _
    have hq := sendAll_queue B rs (fun r' h' => hv r' (by simp [h'])) _ _ hget
    refine ⟨{ lastPoll := r.now,
              messages := rs.foldl (fun q r' => pushTrim q (msgOf r'))
                (pushTrim [] (msgOf r)) }, ?_, ?_⟩
    · simp only [sendAll, List.foldl_cons] at hq ⊢
      rw [show (sendOp m r.senderId r.body r.now).2 =
            mapSet (mapSet m B { lastPoll := r.now, messages := [] }) B
              { lastPoll := r.now, messages := pushTrim [] (msgOf r) } from by
          rw [hstep]]
      exact hq
    · show rs.foldl (fun q r' => pushTrim q (msgOf r')) (pushTrim [] (msgOf r)) = _
      have hfold : ((r :: rs).map msgOf).foldl pushTrim [] =
          (r :: rs).foldl (fun q r' => pushTrim q (msgOf r')) [] := by
        rw [List.foldl_map]
      rw [show pushTrim [] (msgOf r) =
            (fun q r' => pushTrim q (msgOf r')) [] r from rfl, ← List.foldl_cons,
          ← hfold, foldl_pushTrim_nil]
      simp

/-- C5: a mailbox entry whose `lastPoll` lies more than the idle threshold
(300 000 ms = 300 s) in the past is removed by the sweep, messages
included; a subsequent register or a valid send addressed to that user
recreates a fresh entry; the sweep period is the fixed constant
60 000 ms = 60 s. -/
theorem relay_sweep_evicts (m : RelayState) (u now now' : Int) (c : Client)
    (r : SendReq) (hwf : wfKeys m) (hc : mapGet m u = some c)
    (hold : now - c.lastPoll > idleThresholdMs) (hr : validTo u r) :
    mapGet (sweepOp m now) u = none ∧
    mapGet (registerOp (sweepOp m now) u now') u =
      some { lastPoll := now', messages := [] } ∧
    mapGet ((sendOp (sweepOp m now) r.senderId r.body r.now).2) u =
      some { lastPoll := r.now, messages := [msgOf r] } ∧
    idleThresholdMs = 300 * 1000 ∧ sweepIntervalMs = 60 * 1000 := by
  have h1 := sweepOp_removes m u now c hwf hc hold
  refine ⟨h1, registerOp_get_none _ _ _ h1, ?_, by decide, by decide⟩
  rw [show ((sendOp (sweepOp m now) r.senderId r.body r.now).2) =
        mapSet (mapSet (sweepOp m now) u { lastPoll := r.now, messages := [] }) u
          { lastPoll := r.now, messages := pushTrim [] (msgOf r) } from by
      rw [sendOp_ok_none _ r u hr h1]]
  rw [show pushTrim [] (msgOf r) = [msgOf r] from by simp [pushTrim]]
  exact assocGet_assocSet_self _ _ _

/-- C6 (amended): the send handler fails with `InvalidRequest` exactly
when `to` or `type` is missing or JS-falsy (`to = 0`, `type = ""`); on
failure the `clients` map is untouched; otherwise it succeeds; and the
response depends only on the request, not on the mailbox state
(synchronous local validation). -/
theorem send_validation (m : RelayState) (sid : Int) (body : SendBody)
    (now : Int) :
    ((sendOp m sid body now).1 = Except.error RelayError.invalidRequest ↔
      body.toUser = none ∨ body.toUser = some 0 ∨
        body.msgType = none ∨ body.msgType = some "") ∧
    ((sendOp m sid body now).1 = Except.error RelayError.invalidRequest →
      (sendOp m sid body now).2 = m) ∧
    ((sendOp m sid body now).1 ≠ Except.error RelayError.invalidRequest →
      (sendOp m sid body now).1 = Except.ok ()) ∧
    (∀ m' : RelayState, (sendOp m sid body now).1 = (sendOp m' sid body now).1) := by
  have hiff : (¬ jsTruthyTo body.toUser = true ∨ ¬ jsTruthyType body.msgType = true) ↔
      (body.toUser = none ∨ body.toUser = some 0 ∨
        body.msgType = none ∨ body.msgType = some "") := by
    rw [Bool.not_eq_true, Bool.not_eq_true,
        jsTruthyTo_eq_false_iff, jsTruthyType_eq_false_iff]
    tauto
  by_cases hcond : (¬ jsTruthyTo body.toUser = true ∨ ¬ jsTruthyType body.msgType = true)
  · unfold sendOp
    rw [if_pos hcond]
    exact ⟨by simpa using hiff.mp hcond,
           fun _ => rfl,
           fun h => absurd rfl h,
           fun m' => by rw [if_pos hcond]⟩
  · unfold sendOp
    rw [if_neg hcond]
    refine ⟨?_, ?_, ?_, ?_⟩
    · constructor
      · intro h
        exact absurd h (by
          dsimp only
          cases hg : mapGet m (body.toUser.getD 0) <;> simp)
      · intro h
        exact absurd (hiff.mpr h) hcond
    · intro h
      exact absurd h (by
        dsimp only
        cases hg : mapGet m (body.toUser.getD 0) <;> simp)
    · intro _
      dsimp only
    · intro m'
      rw [if_neg hcond]

/-- C6 counterexample: a request whose `to` and `type` fields are both
present (`to = 0`, `type = "x"`) is still rejected with `InvalidRequest`,
so the handler does not fail exactly on missing fields. -/
theorem send_validation_counterexample :
    (sendOp [] 1 { toUser := some 0, msgType := some "x", payload := none } 0).1 =
        Except.error RelayError.invalidRequest ∧
    ({ toUser := some 0, msgType := some "x", payload := none } : SendBody).toUser ≠ none ∧
    ({ toUser := some 0, msgType := some "x", payload := none } : SendBody).msgType ≠ none := by
  refine ⟨rfl, by simp, by simp⟩

/-- C6 witness: a request with `to` missing is rejected and leaves a
one-entry registry unchanged. -/
theorem send_validation_witness :
    (sendOp [(7, { lastPoll := 0, messages := [] })] 1
        { toUser := none, msgType := some "x", payload := none } 0).2 =
      [(7, { lastPoll := 0, messages := [] })] :=
  (send_validation [(7, { lastPoll := 0, messages := [] })] 1
      { toUser := none, msgType := some "x", payload := none } 0).2.1 rfl

/-- C4 witness: running the 101-request batch against the empty registry
leaves exactly the most recent 100 messages queued for user 2. -/
theorem relay_capacity_witness :
    (∀ r ∈ manyReqs, validTo 2 r) ∧ 100 < manyReqs.length ∧
    (∃ c, mapGet (sendAll [] manyReqs) 2 = some c ∧
        c.messages = (manyReqs.map msgOf).drop (manyReqs.length - 100)) :=
  ⟨by decide, by decide,
   (relay_capacity 2 [] manyReqs (by decide) rfl (by decide)).1⟩

/-- C5 witness: an entry last polled at time 0 is gone after a sweep at
time 400000 ms. -/
theorem relay_sweep_evicts_witness :
    mapGet (sweepOp [(5, { lastPoll := 0, messages := [] })] 400000) 5 = none :=
  (relay_sweep_evicts [(5, { lastPoll := 0, messages := [] })] 5 400000 1
      { lastPoll := 0, messages := [] }
      { senderId := 9, body := { toUser := some 5, msgType := some "t",
                                 payload := none }, now := 2 }
      (by decide) rfl (by decide) (by decide)).1

/-- C1 (amended): for any sequence of at most 100 valid send calls all
addressed to recipient `B` between two polls, the next poll returns
exactly the sent messages in send order and empties the queue, and a
second poll with no intervening send returns the empty list. (The bound
of 100 is forced by the capacity trim; see the counterexample.) -/
theorem relay_fifo_drain (B t0 t1 t2 : Int) (m : RelayState)
    (reqs : List SendReq) (hv : ∀ r ∈ reqs, validTo B r)
    (hlen : reqs.length ≤ 100) :
    (pollOp (sendAll (pollOp m B t0).2 reqs) B t1).1 = reqs.map msgOf ∧
    (pollOp (pollOp (sendAll (pollOp m B t0).2 reqs) B t1).2 B t2).1 = [] := by
  have h0 : mapGet (pollOp m B t0).2 B = some { lastPoll := t0, messages := [] } :=
    pollOp_snd_get m B t0
  have hq := sendAll_queue B reqs hv _ _ h0
  have hmsgs : reqs.foldl (fun q r => pushTrim q (msgOf r)) [] = reqs.map msgOf := by
    have hfold : (reqs.map msgOf).foldl pushTrim [] =
        reqs.foldl (fun q r => pushTrim q (msgOf r)) [] := by
      rw [List.foldl_map]
    rw [← hfold, foldl_pushTrim_of_le _ [] (by simpa using hlen)]
    simp
  constructor
  · rw [pollOp_fst, hq]
    simpa using hmsgs
  · rw [pollOp_fst, pollOp_snd_get]
    simp

set_option maxRecDepth 4000

/-- C1 counterexample: after the 101-request batch addressed to a freshly
polled recipient, the next poll returns 100 messages, not the messages of
the whole sequence — the claim fails for sequences longer than the
capacity bound. -/
theorem relay_fifo_drain_counterexample :
    (pollOp (sendAll (pollOp [] 2 0).2 manyReqs) 2 1).1 ≠ manyReqs.map msgOf := by
  intro h
  have hl := congrArg List.length h
  rw [show (pollOp (sendAll (pollOp [] 2 0).2 manyReqs) 2 1).1.length = 100 from by
        decide,
      show (manyReqs.map msgOf).length = 101 from by decide] at hl
  exact absurd hl (by decide)

/-- C1 witness: two sends to user 2 between two polls are returned in
order by the next poll, and the poll after that returns nothing. -/
theorem relay_fifo_drain_witness :
    (pollOp (sendAll (pollOp [] 2 0).2
        [{ senderId := 1, body := { toUser := some 2, msgType := some "a",
                                    payload := none }, now := 3 },
         { senderId := 4, body := { toUser := some 2, msgType := some "b",
                                    payload := some [("x", JsVal.num 9)] },
           now := 5 }]) 2 6).1 =
      [{ senderId := 1, body := { toUser := some 2, msgType := some "a",
                                  payload := none }, now := 3 },
       { senderId := 4, body := { toUser := some 2, msgType := some "b",
                                  payload := some [("x", JsVal.num 9)] },
         now := 5 }].map msgOf ∧
    (pollOp (pollOp (sendAll (pollOp [] 2 0).2
        [{ senderId := 1, body := { toUser := some 2, msgType := some "a",
                                    payload := none }, now := 3 },
         { senderId := 4, body := { toUser := some 2, msgType := some "b",
                                    payload := some [("x", JsVal.num 9)] },
           now := 5 }]) 2 6).2 2 7).1 = [] :=
  relay_fifo_drain 2 0 6 7 [] _ (by decide) (by decide)

/-- C7 (amended): a successful send appends exactly one message to the
recipient's queue, namely `{type, from: senderId, ...payload}` — the
sender id is stored under `from` (not `fromUserId`) and the payload's own
fields are spread at top level (not nested under a `payload` key), a
payload field overriding `type`/`from` when the names collide; in the
spec's example scenario B's next poll returns the single message
`{type: "invite", from: 1, channel: "call-123"}`. -/
theorem send_message_shape (m : RelayState) (B : Int) (c : Client)
    (r : SendReq) (hv : validTo B r) (hc : mapGet m B = some c)
    (hlen : c.messages.length < 100) :
    mapGet ((sendOp m r.senderId r.body r.now).2) B =
      some { c with messages := c.messages ++ [msgOf r] } ∧
    (∀ k, lookupField (msgOf r) k =
      (lastField (r.body.payload.getD []) k).or
        (lookupField [("type", JsVal.str (r.body.msgType.getD "")),
                      ("from", JsVal.num r.senderId)] k)) ∧
    (pollOp (sendOp [] 1 { toUser := some 2, msgType := some "invite",
                           payload := some [("channel", JsVal.str "call-123")] }
        0).2 2 5).1 =
      [[("type", JsVal.str "invite"), ("from", JsVal.num 1),
        ("channel", JsVal.str "call-123")]] := by
  refine ⟨?_, fun k => lookupField_mkMessage _ _ _ k, by decide⟩
  rw [show (sendOp m r.senderId r.body r.now).2 =
        mapSet m B { c with messages := pushTrim c.messages (msgOf r) } from by
      rw [sendOp_ok_some m r B c hv hc]]
  rw [pushTrim_of_lt _ _ hlen]
  exact assocGet_assocSet_self _ _ _

/-- C7 counterexample: in the spec's own example the message delivered by
poll carries the payload's `channel` field at top level and has neither a
`fromUserId` field nor a nested `payload` field, contradicting the claimed
record shape `{type, fromUserId, payload}`. -/
theorem send_message_shape_counterexample :
    (pollOp (sendOp [] 1 { toUser := some 2, msgType := some "invite",
                           payload := some [("channel", JsVal.str "call-123")] }
        0).2 2 5).1 =
      [[("type", JsVal.str "invite"), ("from", JsVal.num 1),
        ("channel", JsVal.str "call-123")]] ∧
    lookupField [("type", JsVal.str "invite"), ("from", JsVal.num 1),
        ("channel", JsVal.str "call-123")] "fromUserId" = none ∧
    lookupField [("type", JsVal.str "invite"), ("from", JsVal.num 1),
        ("channel", JsVal.str "call-123")] "payload" = none := by
  refine ⟨by decide, rfl, rfl⟩

/-- C7 witness: sending the example invite to user 2 appends exactly the
spread message to user 2's queue. -/
theorem send_message_shape_witness :
    mapGet ((sendOp [(2, { lastPoll := 0, messages := [] })] 1
        { toUser := some 2, msgType := some "invite",
          payload := some [("channel", JsVal.str "call-123")] } 3).2) 2 =
      some { lastPoll := 0,
             messages := [[("type", JsVal.str "invite"), ("from", JsVal.num 1),
                           ("channel", JsVal.str "call-123")]] } :=
  (send_message_shape [(2, { lastPoll := 0, messages := [] })] 2
      { lastPoll := 0, messages := [] }
      { senderId := 1,
        body := { toUser := some 2, msgType := some "invite",
                  payload := some [("channel", JsVal.str "call-123")] },
        now := 3 }
      (by decide) rfl (by decide)).1

/-- C10: the implemented send spreads the payload's own fields into the
delivered message, so a payload field named `from` or `type` overrides the
authenticated sender id or the supplied type, and the `from` field of a
delivered message need not equal the authenticated sender: in the concrete
run below, sender 1 sends a payload `{from: 999}` and the recipient's poll
returns a message whose `from` is 999. -/
theorem payload_spread_overrides (type : String) (sid : Int)
    (payload : JsObj) (v : JsVal) :
    (lastField payload "from" = some v →
      lookupField (mkMessage type sid payload) "from" = some v) ∧
    (lastField payload "type" = some v →
      lookupField (mkMessage type sid payload) "type" = some v) ∧
    (pollOp (sendOp [] 1 { toUser := some 2, msgType := some "invite",
                           payload := some [("from", JsVal.num 999)] }
        0).2 2 5).1 =
      [[("type", JsVal.str "invite"), ("from", JsVal.num 999)]] := by
  refine ⟨?_, ?_, by decide⟩
  · intro h
    rw [lookupField_mkMessage, h]
    rfl
  · intro h
    rw [lookupField_mkMessage, h]
    rfl

/-- C10 witness: a payload field `from = 7` overrides the sender id in the
constructed message. -/
theorem payload_spread_overrides_witness :
    lookupField (mkMessage "t" 1 [("from", JsVal.num 7)]) "from" =
      some (JsVal.num 7) :=
  (payload_spread_overrides "t" 1 [("from", JsVal.num 7)] (JsVal.num 7)).1 rfl

/-- C2 counterexample: from the initial page state, the remote-peer-joined
event (with media) marks the call connected but does not start the
duration timer, while the local-user-joined event starts the timer even
though the call is not connected — the timer does not start at the
transition into Connected. -/
theorem timer_start_counterexample :
    (stepPage initCallState (PageEvent.remoteUserJoined true)).page.isConnected = true ∧
    (stepPage initCallState (PageEvent.remoteUserJoined true)).page.timerRunning = false ∧
    (stepPage initCallState PageEvent.localUserJoined).page.timerRunning = true ∧
    (stepPage initCallState PageEvent.localUserJoined).page.isConnected = false :=
  ⟨rfl, rfl, rfl, rfl⟩

/-- C2 (amended): the duration timer starts — and the elapsed-seconds
counter resets to zero — on the `onLocalUserJoined` callback, in every
state in which that event fires; the remote-user-joined event only sets
`isConnected` (when the remote user has a video track) and never touches
the timer or the elapsed count. -/
theorem timer_starts_on_local_join (s : CallState) (b : Bool) :
    stepPage s PageEvent.localUserJoined =
      { s with page := { s.page with timerRunning := true, callDuration := 0 } } ∧
    (stepPage s (PageEvent.remoteUserJoined b)).page.timerRunning =
      s.page.timerRunning ∧
    (stepPage s (PageEvent.remoteUserJoined b)).page.callDuration =
      s.page.callDuration ∧
    (stepPage s (PageEvent.remoteUserJoined true)).page.isConnected = true := by
  refine ⟨rfl, ?_, ?_, rfl⟩ <;> cases b <;> rfl

/-- C3 counterexample: while the provider is Idle, `addMessage` with a
valid sender and text appends an entry to the transcript — there is no
phase guard. -/
theorem addMessage_phase_counterexample :
    phase initProvider = CallPhase.idle ∧
    (addMessage initProvider
        { sender := some { id := 1, username := "a", displayName := none },
          text := some "hi", translatedText := none, timestamp := some 42 }
        0).messages =
      [{ id := "msg-0",
         sender := { id := 1, username := "a", displayName := none },
         text := "hi", translatedText := none, timestamp := 42 }] :=
  ⟨rfl, rfl⟩

/-- C3 (amended): `addMessage` is guarded only on a missing sender or a
missing/empty text, not on the call phase: for any provider state it
leaves the transcript unchanged when sender or text is missing/falsy, and
otherwise appends exactly one entry at the end with the given sender,
text, translated text and timestamp (defaulting to now) and bumps the id
counter — in every phase, including Idle. -/
theorem addMessage_guard (s : ProviderState) (msg : PartialMessage)
    (now : Int) :
    ((msg.sender = none ∨ msg.text = none ∨ msg.text = some "") →
      addMessage s msg now = s) ∧
    (∀ u txt, msg.sender = some u → msg.text = some txt → txt ≠ "" →
      addMessage s msg now =
        { s with
          messages := s.messages ++
            [{ id := "msg-" ++ toString s.messageIdCounter, sender := u,
               text := txt, translatedText := msg.translatedText,
               timestamp := msg.timestamp.getD now }],
          messageIdCounter := s.messageIdCounter + 1 }) := by
  constructor
  · intro h
    unfold addMessage
    rw [if_pos]
    rcases h with h | h | h <;> simp [h, jsTruthyText]
  · intro u txt hs ht htxt
    unfold addMessage
    rw [if_neg]
    · simp [hs, ht]
    · simp [hs, ht, jsTruthyText, htxt]

/-- C3 witness: a message without a sender is dropped, and a complete
message is appended, on the initial provider state. -/
theorem addMessage_guard_witness :
    addMessage initProvider
        { sender := none, text := some "hi", translatedText := none,
          timestamp := none } 0 = initProvider ∧
    addMessage initProvider
        { sender := some { id := 1, username := "a", displayName := none },
          text := some "hey", translatedText := some "hola",
          timestamp := some 7 } 0 =
      { initProvider with
        messages := [{ id := "msg-0",
                       sender := { id := 1, username := "a", displayName := none },
                       text := "hey", translatedText := some "hola",
                       timestamp := 7 }],
        messageIdCounter := 1 } :=
  ⟨(addMessage_guard initProvider _ 0).1 (Or.inl rfl),
   by
    have := (addMessage_guard initProvider
        { sender := some { id := 1, username := "a", displayName := none },
          text := some "hey", translatedText := some "hola",
          timestamp := some 7 } 0).2
      { id := 1, username := "a", displayName := none } "hey" rfl rfl
      (by decide)
    simpa using this⟩

/-- C8: `handleEndCall` is valid from every combined client state: it
leaves the RTC session, stops the duration timer, clears the transcript
and returns the session phase to Idle; applying it again is a no-op (it is
idempotent), so a second end-call on an already-Idle session raises
nothing and keeps the phase Idle. -/
theorem endCall_idempotent (s : CallState) :
    phase (handleEndCall s).provider = CallPhase.idle ∧
    (handleEndCall s).provider.messages = [] ∧
    (handleEndCall s).page.timerRunning = false ∧
    (handleEndCall s).rtcJoined = false ∧
    handleEndCall (handleEndCall s) = handleEndCall s := by
  refine ⟨?_, rfl, rfl, rfl, rfl⟩
  simp [handleEndCall, endCallProvider, phase]

/-- Fuel-indexed induction principle for the bounded polling loop: from
any attempt count still below the bound, the loop makes at most
`maxAttempts` attempts in total, and when every poll is still pending it
ends in the timeout error at exactly `maxAttempts` attempts. -/
theorem checkResult_bound (results : Nat → Option String) :
    ∀ (n attempts : Nat), maxAttempts - attempts ≤ n → attempts < maxAttempts →
      (checkResult results attempts).2 ≤ maxAttempts ∧
      ((∀ i, results i = none) →
        checkResult results attempts =
          (Except.error "Transcription timed out", maxAttempts)) := by
  intro n
  induction n with
  | zero => intro attempts h1 h2; omega
  | succ n ih =>
    intro attempts h1 h2
    rw [checkResult]
    cases hres : results (attempts + 1) with
    | some r =>
      constructor
      · simpa using h2
      · intro hall
        rw [hall (attempts + 1)] at hres
        exact absurd hres (by simp)
    | none =>
      by_cases hge : attempts + 1 ≥ maxAttempts
      · rw [if_pos hge]
        have heq : attempts + 1 = maxAttempts := by omega
        constructor
        · simpa using Nat.le_of_eq heq
        · intro _
          rw [heq]
      · rw [if_neg hge]
        exact ih (attempts + 1) (by omega) (by omega)

/-- C9: the transcription-result polling loop makes at most `maxAttempts`
(30) attempts; when no result ever arrives it stops with the
"Transcription timed out" error at exactly the 30th attempt instead of
polling again; the delay scheduled between attempts is the fixed constant
2000 ms. The loop therefore terminates after a bounded number of attempts
for every transcription job. -/
theorem transcription_polling_bounded (results : Nat → Option String) :
    (pollTranscriptionResult results).2 ≤ maxAttempts ∧
    ((∀ i, results i = none) →
      pollTranscriptionResult results =
        (Except.error "Transcription timed out", maxAttempts)) ∧
    maxAttempts = 30 ∧ pollDelayMs = 2000 := by
  have h := checkResult_bound results maxAttempts 0 (by omega)
    (by simp [maxAttempts])
  exact ⟨h.1, h.2, rfl, rfl⟩

/-- C9 witness: with every poll still pending, the loop stops with the
timeout error after exactly 30 attempts. -/
theorem transcription_polling_bounded_witness :
    pollTranscriptionResult (fun _ => none) =
      (Except.error "Transcription timed out", 30) :=
  (transcription_polling_bounded (fun _ => none)).2.1 (fun _ => rfl)
